import Mathlib

/-!
Verification of the DOVE O3 code-analysis scripts.

This development shallowly embeds the two analyzer scripts
(`scripts/utils/o3_code_analyzer.py`, the "legacy" analyzer, and
`scripts/utils/o3_code_analyzer_enhanced.py`, the "enhanced" analyzer)
and proves properties of the embedded operations.

Modelling conventions:
  - Python dicts / parsed JSON are modelled by `JValue`; a dict is an
    association list of fields in insertion order.
  - The single network round trip of a dispatch is modelled by a
    `NetOutcome` argument: either the request raised an exception or it
    produced a parsed response body.  `json.loads` applied to the reply
    *content* string is modelled by an explicit `parse` function argument
    (the scripts treat the parser as a black box, branching only on
    success / `JSONDecodeError`).
  - Python string operations are reimplemented on `List Char`
    (`strContains` is the `in` substring test, `pyLower` is `str.lower`,
    etc.).
  - Every Python exception that the source catches is routed to the
    branch the corresponding `except` handler takes; an exception the
    source does not catch is modelled with `Except`.
-/

namespace Dove

/-! ## Python-style string helpers -/

/-- Containment test on character lists: does `nd` occur as a contiguous
sublist of the second argument?  This is Python's `nd in s`. -/
def containsAux (nd : List Char) : List Char → Bool
  | [] => nd.isEmpty
  | s@(_ :: t) => (s.take nd.length == nd) || containsAux nd t

/-- Python's substring test `sub in s`. -/
def strContains (s sub : String) : Bool :=
  containsAux sub.toList s.toList

/-- Python's `s.startswith(p)` (also the semantics of `re.match` for a
literal pattern). -/
def strStarts (s p : String) : Bool :=
  s.toList.take p.toList.length == p.toList

/-- Python's `s.endswith(p)`. -/
def strEnds (s p : String) : Bool :=
  s.toList.drop (s.toList.length - p.toList.length) == p.toList
    && p.toList.length ≤ s.toList.length

/-- Python's `str.lower` (ASCII, which is all the scripts use). -/
def pyLower (s : String) : String :=
  String.mk (s.toList.map Char.toLower)

/-- Python's `str.count(c)` for a single character. -/
def countChar (s : String) (c : Char) : Nat :=
  (s.toList.filter (fun d => d == c)).length

/-- Split a character list at every occurrence of `sep`; `splitChar sep s`
always returns at least one (possibly empty) segment, like Python's
`str.split(sep)` for a one-character separator. -/
def splitChar (sep : Char) : List Char → List (List Char)
  | [] => [[]]
  | c :: t =>
    if c == sep then [] :: splitChar sep t
    else
      match splitChar sep t with
      | [] => [[c]]
      | h :: r => (c :: h) :: r

/-- Python's `s.split(sep)` for a one-character separator. -/
def pySplit (s : String) (sep : Char) : List String :=
  (splitChar sep s.toList).map String.mk

/-- Python's `sep.join(lines)` for the newline separator. -/
def joinNl : List String → String
  | [] => ""
  | [l] => l
  | l :: rest => l ++ "\n" ++ joinNl rest

/-! ## JSON-like values (Python dicts / parsed JSON) -/

/-- Parsed JSON / Python object values.  An object keeps its fields as an
ordered association list. -/
inductive JValue where
  | null : JValue
  | bool : Bool → JValue
  | num : Int → JValue
  | str : String → JValue
  | arr : List JValue → JValue
  | obj : List (String × JValue) → JValue

/-- Dictionary lookup: first binding of key `k`, if any.  `jLookup fl k ≠
none` is Python's `k in d`, and `jLookup fl k` with a default is
`d.get(k, default)`. -/
def jLookup (fields : List (String × JValue)) (k : String) : Option JValue :=
  (fields.find? (fun kv => kv.1 == k)).map (fun kv => kv.2)

end Dove

namespace Dove.Legacy

/-!
## Legacy analyzer (`o3_code_analyzer.py`)

`O3Analyzer._simulate_analysis_response` and
`O3Analyzer.analyze_code_snippet`.
-/

open Dove

/-- First canned reflection finding of `_simulate_analysis_response`. -/
def reflectionFinding1 : JValue := .obj
  [ ("severity", .str "medium")
  , ("category", .str "security")
  , ("title", .str "Potential Integer Overflow in Reflection Calculation")
  , ("description", .str "The reflection calculation involves very large numbers that could potentially overflow.")
  , ("line_numbers", .arr [.num 42, .num 56])
  , ("recommendation", .str "Consider using SafeMath or Solidity 0.8.0+ built-in overflow checks.") ]

/-- Second canned reflection finding of `_simulate_analysis_response`. -/
def reflectionFinding2 : JValue := .obj
  [ ("severity", .str "low")
  , ("category", .str "gas_optimization")
  , ("title", .str "Inefficient Storage Access Pattern")
  , ("description", .str "Multiple reads from the same storage variables could be optimized.")
  , ("line_numbers", .arr [.num 78, .num 79, .num 80])
  , ("recommendation", .str "Cache storage variables in memory before multiple reads.") ]

/-- First canned taxation finding of `_simulate_analysis_response`. -/
def taxFinding1 : JValue := .obj
  [ ("severity", .str "low")
  , ("category", .str "security")
  , ("title", .str "Timestamp Dependence")
  , ("description", .str "The tax calculation relies on block.timestamp which can be manipulated slightly by miners.")
  , ("line_numbers", .arr [.num 25])
  , ("recommendation", .str "For timing that requires precision under 15 seconds, consider additional validation.") ]

/-- Second canned taxation finding of `_simulate_analysis_response`. -/
def taxFinding2 : JValue := .obj
  [ ("severity", .str "info")
  , ("category", .str "logic_errors")
  , ("title", .str "Tax Rate Boundary Condition")
  , ("description", .str "The tax rate transitions may create edge cases exactly at day boundaries.")
  , ("line_numbers", .arr [.num 30, .num 32, .num 34])
  , ("recommendation", .str "Consider using strictly greater than (>) instead of >= for clearer boundary definition.") ]

/-- Canned transfer finding of `_simulate_analysis_response`. -/
def transferFinding : JValue := .obj
  [ ("severity", .str "high")
  , ("category", .str "security")
  , ("title", .str "Potential Reentrancy Risk")
  , ("description", .str "Ensure state changes happen before external calls to prevent reentrancy attacks.")
  , ("line_numbers", .arr [.num 110, .num 125])
  , ("recommendation", .str "Follow the checks-effects-interactions pattern rigorously.") ]

/-- Findings list built by `_simulate_analysis_response`: the canned blocks
are appended in source order, selected by keyword tests on the lowercased
description. -/
def simulatedFindings (description : String) : List JValue :=
  (if strContains (pyLower description) "reflection"
     then [reflectionFinding1, reflectionFinding2] else [])
  ++ (if strContains (pyLower description) "tax"
     then [taxFinding1, taxFinding2] else [])
  ++ (if strContains (pyLower description) "transfer"
        || strContains (pyLower description) "_update"
     then [transferFinding] else [])

/-- Model of `O3Analyzer._simulate_analysis_response`.  `now` stands for
`datetime.now().isoformat()`.  The `focus_areas` and `code` arguments are
accepted (as in the source) but do not influence the result. -/
def simulate_analysis_response (now description : String)
    (focus_areas : List String) (code : String) : JValue :=
  .obj [ ("status", .str "success")
       , ("timestamp", .str now)
       , ("findings", .arr (simulatedFindings description)) ]

/-- Outcome of the single `urllib.request.urlopen` + `json.loads` round
trip in `analyze_code_snippet`: either some step raised (network error,
unreadable body, body not valid JSON) or a parsed response body was
obtained. -/
inductive NetOutcome where
  | exn : NetOutcome
  | ok : JValue → NetOutcome

/-- Model of `result['choices'][0]['message']['content']` guarded by
`'choices' in result and len(result['choices']) > 0`.  Returns `some`
content string exactly when the access chain succeeds and yields a string;
every failing shape is `none`, which the caller sends to the simulated
fallback (in the source either because the `if` guard is false or because
the raised `KeyError`/`TypeError` is caught by the surrounding
`except Exception`). -/
def extractContent (result : JValue) : Option String :=
  match result with
  | .obj fields =>
    match jLookup fields "choices" with
    | some (.arr (c0 :: _)) =>
      match c0 with
      | .obj cfs =>
        match jLookup cfs "message" with
        | some (.obj mfs) =>
          match jLookup mfs "content" with
          | some (.str s) => some s
          | _ => none
        | _ => none
      | _ => none
    | _ => none
  | _ => none

/-- Model of `O3Analyzer.analyze_code_snippet`.  `parse` models
`json.loads` applied to the reply content (`none` is `JSONDecodeError`).
A content value that parses to a non-object makes the source raise while
manipulating it (`'findings' not in analysis` / `analysis['findings'] = []`
on a non-dict), which the outer `except Exception` turns into the
simulated fallback as well. -/
def analyze_code_snippet (parse : String → Option JValue) (now : String)
    (net : NetOutcome) (code description : String)
    (focus_areas : List String) : JValue :=
  let foc := if focus_areas.isEmpty
    then ["security", "gas_optimization", "logic_errors"] else focus_areas
  match net with
  | .exn => simulate_analysis_response now description foc code
  | .ok result =>
    match extractContent result with
    | none => simulate_analysis_response now description foc code
    | some content =>
      match parse content with
      | some (.obj fields) =>
        .obj [ ("status", .str "success")
             , ("timestamp", .str now)
             , ("findings", (jLookup fields "findings").getD (.arr [])) ]
      | some _ => simulate_analysis_response now description foc code
      | none => simulate_analysis_response now description foc code

end Dove.Legacy

namespace Dove.Legacy

/-!
## Legacy function extraction (`O3Analyzer.analyze_function`)

The source splits the file on newlines and walks the lines: the first line
containing `"function " + name` opens the unit and seeds a brace counter
with that line's `'{'` count; each further line is appended and the counter
is adjusted by its `'{'`/`'}'` counts, closing the unit once the counter
drops to zero or below.
-/

/-- Line loop of `analyze_function`.  State: `in_function` flag, running
brace count, accumulated function lines. -/
def extract_lines (fname : String) :
    List String → Bool → Int → List String → List String
  | [], _, _, acc => acc
  | line :: rest, in_f, bc, acc =>
    if strContains line ("function " ++ fname) then
      extract_lines fname rest true (countChar line '\x7b') (acc ++ [line])
    else if in_f then
      let bc' := bc + (countChar line '\x7b' : Int) - (countChar line '\x7d' : Int)
      if bc' ≤ 0 then acc ++ [line]
      else extract_lines fname rest true bc' (acc ++ [line])
    else
      extract_lines fname rest false bc acc

/-- Model of the extraction part of `O3Analyzer.analyze_function`:
`none` when the function is not found (the source prints a message and
returns `None`), otherwise the joined function lines. -/
def extract_function (full_code fname : String) : Option String :=
  let function_lines := extract_lines fname (pySplit full_code '\n') false 0 []
  if function_lines.isEmpty then none
  else some (joinNl function_lines)

end Dove.Legacy

namespace Dove.Enhanced

/-!
## Enhanced analyzer: Solidity function extraction

`o3_code_analyzer_enhanced.py`, `analyze_function`, `.sol` branch.  The
source searches the pattern

  function\s+NAME\s*\([^{]*\{((?:[^{}]|\{[^{}]*\})*)\}

with `re.search` and then returns `f"function {name}" + match.group(0)`.
The pattern is modelled by a direct character-level matcher; each piece of
the pattern is a maximal munch followed by a required character, so regex
backtracking can never produce a different result and the matcher below is
exact (for a name, such as an identifier, that neither starts with a
whitespace character nor contains `(`).
-/

open Dove

/-- Python's `\s` character class. -/
def isPyWs (c : Char) : Bool :=
  c == ' ' || c == '\t' || c == '\n' || c == '\r' || c == '\x0b' || c == '\x0c'

/-- Literal-prefix matcher: strip `lit` from the front of `s`. -/
def stripLit : List Char → List Char → Option (List Char)
  | [], s => some s
  | _, [] => none
  | a :: as', b :: bs => if a == b then stripLit as' bs else none

/-- Matcher for the regex tail `(?:[^{}]|\{[^{}]*\})*\}` starting right
after the opening brace.  The `Bool` state records whether the scan is
inside a depth-one inner brace group.  Returns the consumed characters
(including the final closing brace) and the remainder. -/
def solBodyAux : List Char → Bool → Option (List Char × List Char)
  | [], _ => none
  | c :: rest, false =>
    if c == '\x7d' then some ([c], rest)
    else if c == '\x7b' then
      (solBodyAux rest true).map (fun p => (c :: p.1, p.2))
    else
      (solBodyAux rest false).map (fun p => (c :: p.1, p.2))
  | c :: rest, true =>
    if c == '\x7d' then
      (solBodyAux rest false).map (fun p => (c :: p.1, p.2))
    else if c == '\x7b' then none
    else
      (solBodyAux rest true).map (fun p => (c :: p.1, p.2))

/-- Attempt to match the whole Solidity function pattern at the current
position; returns `group(0)` (the full matched text). -/
def solMatchAt (name s : List Char) : Option (List Char) :=
  match stripLit ("function".toList) s with
  | none => none
  | some r1 =>
    let ws1 := r1.takeWhile isPyWs
    let r2 := r1.dropWhile isPyWs
    if ws1.isEmpty then none
    else
      match stripLit name r2 with
      | none => none
      | some r3 =>
        let ws2 := r3.takeWhile isPyWs
        let r4 := r3.dropWhile isPyWs
        match r4 with
        | '(' :: r5 =>
          let pre := r5.takeWhile (fun c => !(c == '\x7b'))
          let r6 := r5.dropWhile (fun c => !(c == '\x7b'))
          match r6 with
          | '\x7b' :: r7 =>
            match solBodyAux r7 false with
            | none => none
            | some (body, _) =>
              some ("function".toList ++ ws1 ++ name ++ ws2
                    ++ '(' :: pre ++ '\x7b' :: body)
          | _ => none
        | _ => none

/-- Leftmost-match search (`re.search`): try every start position in
order. -/
def solSearch (name : List Char) : List Char → Option (List Char)
  | [] => solMatchAt name []
  | s@(_ :: t) =>
    match solMatchAt name s with
    | some g => some g
    | none => solSearch name t

/-- Model of the `.sol` branch of the enhanced `analyze_function`: on a
match the source returns `f"function {function_name}" + match.group(0)`. -/
def enhancedSolExtract (code fname : String) : Option String :=
  (solSearch fname.toList code.toList).map
    (fun g0 => "function " ++ fname ++ String.mk g0)

/-!
## Enhanced analyzer: Python function extraction

`analyze_function`, `.py` branch.  The source searches

  def\s+NAME\s*\([^:]*:(?:[^\n]*\n+(?:[ \t]+[^\n]*\n+)*)

with `re.search` and returns `match.group(0)` unchanged.  Again every
piece is a maximal munch followed by a required character, so the direct
matcher below is exact.  The trailing line loop `(?:[ \t]+[^\n]*\n+)*` is
modelled by the state machine `pyGo`.
-/

/-- Python's `[ \t]` class: the characters the body-line repetition is
allowed to start with. -/
def isIndentChar (c : Char) : Bool :=
  c == ' ' || c == '\t'

/-- State of the body-line scan `(?:[ \t]+[^\n]*\n+)*`. -/
inductive PyState where
  | start : PyState
  | absorb : PyState
  | pending : List Char → PyState

/-- Body-line scan.  `start`: before any repetition (a newline here ends
the scan, since a repetition must begin with a blank).  `absorb`: just
after the newline(s) of a completed repetition, where further newlines
extend that repetition's `\n+`.  `pending rev`: inside a blank-led line
whose characters so far are `rev` (reversed); if the input ends before the
line's newline, the repetition fails and the pending characters are left
unconsumed, exactly like regex backtracking past a failed last
iteration. -/
def pyGo : PyState → List Char → List Char × List Char
  | .start, [] => ([], [])
  | .absorb, [] => ([], [])
  | .pending pend, [] => ([], pend.reverse)
  | .start, c :: rest =>
    if isIndentChar c then pyGo (.pending [c]) rest
    else ([], c :: rest)
  | .absorb, c :: rest =>
    if c == '\n' then
      let p := pyGo .absorb rest
      ('\n' :: p.1, p.2)
    else if isIndentChar c then pyGo (.pending [c]) rest
    else ([], c :: rest)
  | .pending pend, c :: rest =>
    if c == '\n' then
      let p := pyGo .absorb rest
      (pend.reverse ++ '\n' :: p.1, p.2)
    else pyGo (.pending (c :: pend)) rest

/-- Attempt to match the whole Python `def` pattern at the current
position; returns `group(0)`. -/
def pyMatchAt (name s : List Char) : Option (List Char) :=
  match stripLit ("def".toList) s with
  | none => none
  | some r1 =>
    let ws1 := r1.takeWhile isPyWs
    let r2 := r1.dropWhile isPyWs
    if ws1.isEmpty then none
    else
      match stripLit name r2 with
      | none => none
      | some r3 =>
        let ws2 := r3.takeWhile isPyWs
        let r4 := r3.dropWhile isPyWs
        match r4 with
        | '(' :: r5 =>
          let pre := r5.takeWhile (fun c => !(c == ':'))
          let r6 := r5.dropWhile (fun c => !(c == ':'))
          match r6 with
          | ':' :: r7 =>
            let line0 := r7.takeWhile (fun c => !(c == '\n'))
            let r8 := r7.dropWhile (fun c => !(c == '\n'))
            let nl1 := r8.takeWhile (fun c => c == '\n')
            let r9 := r8.dropWhile (fun c => c == '\n')
            if nl1.isEmpty then none
            else
              some ("def".toList ++ ws1 ++ name ++ ws2
                    ++ '(' :: pre ++ ':' :: line0 ++ nl1 ++ (pyGo .start r9).1)
          | _ => none
        | _ => none

/-- Leftmost-match search for the Python pattern. -/
def pySearch (name : List Char) : List Char → Option (List Char)
  | [] => pyMatchAt name []
  | s@(_ :: t) =>
    match pyMatchAt name s with
    | some g => some g
    | none => pySearch name t

/-- Model of the `.py` branch of the enhanced `analyze_function`: the
extracted unit is `match.group(0)`. -/
def pyExtract (code fname : String) : Option String :=
  (pySearch fname.toList code.toList).map String.mk

end Dove.Enhanced

namespace Dove.Enhanced

/-!
## Enhanced analyzer: project discovery (`analyze_project`)

The source walks the directory tree with `os.walk`, prunes subdirectories
whose *name* matches an exclusion pattern with `re.match`, skips files
whose *full path* matches an exclusion pattern with `re.search`, and keeps
files whose name ends with one of the allow-listed extensions.

Exclusion patterns are modelled by the literal-with-optional-`$`-anchor
fragment of Python regexes, which covers the source's defaults
(`node_modules`, `dist`, `.git`, `__pycache__`, the dot read as a literal)
and end-anchored variants; `pmatch` is `re.match`, `psearch` is
`re.search` for such a pattern.
-/

open Dove

/-- Exclusion pattern: a literal string, optionally `$`-anchored at the
end. -/
structure Pattern where
  lit : String
  endAnchor : Bool
deriving DecidableEq

/-- Python's `re.match(p, d)` for a supported pattern: the match is
anchored at the start of `d`; with a trailing `$` the whole string must be
the literal. -/
def pmatch (p : Pattern) (d : String) : Bool :=
  if p.endAnchor then d == p.lit else strStarts d p.lit

/-- Python's `re.search(p, s)` for a supported pattern: the literal may
occur anywhere; with a trailing `$` it must end the string. -/
def psearch (p : Pattern) (s : String) : Bool :=
  if p.endAnchor then strEnds s p.lit else strContains s p.lit

/-- Directory tree: an ordered sequence of entries, each either a file or
a named subdirectory with its own entries (the order is `os.scandir`
order, which `os.walk` preserves). -/
inductive FS where
  | nilF : FS
  | file : String → FS → FS
  | dir : String → FS → FS → FS

/-- Extension allow-list of `analyze_project`
(`file.endswith(('.js', ...))`). -/
def allowedExtensions : List String :=
  [".js", ".jsx", ".ts", ".tsx", ".py", ".sol", ".html", ".css", ".scss"]

/-- Allow-list test on a file name. -/
def extOkB (exts : List String) (fname : String) : Bool :=
  exts.any (fun e => strEnds fname e)

/-- Model of `os.path.join` for a relative component on POSIX. -/
def joinPath (a b : String) : String := a ++ "/" ++ b

/-- Does some exclusion pattern `re.match` the directory name?  Matching
directories are removed from `dirs[:]` and never descended into. -/
def pruneB (pats : List Pattern) (d : String) : Bool :=
  pats.any (fun p => pmatch p d)

/-- Files of the current directory kept by the loop body of
`analyze_project`: a file is skipped when a pattern `re.search`-matches
its full path, then kept when its name has an allow-listed extension. -/
def hereFiles (pats : List Pattern) (exts : List String) (pre : String) :
    FS → List String
  | .nilF => []
  | .file fn rest =>
    (if pats.any (fun p => psearch p (joinPath pre fn)) then []
     else if extOkB exts fn then [joinPath pre fn] else [])
    ++ hereFiles pats exts pre rest
  | .dir _ _ rest => hereFiles pats exts pre rest

/-- Recursive part of the walk: for each unpruned subdirectory, its own
files and then its subtree, in entry order (the `os.walk` top-down
order). -/
def walkDirs (pats : List Pattern) (exts : List String) (pre : String) :
    FS → List String
  | .nilF => []
  | .file _ rest => walkDirs pats exts pre rest
  | .dir n c rest =>
    (if pruneB pats n then []
     else hereFiles pats exts (joinPath pre n) c
          ++ walkDirs pats exts (joinPath pre n) c)
    ++ walkDirs pats exts pre rest

/-- Model of the discovery loop of `analyze_project`: the `code_files`
list, in the order `os.walk` yields them.  The root directory itself is
never name-checked (only entries of `dirs` are pruned). -/
def discover (pats : List Pattern) (exts : List String) (root : String)
    (entries : FS) : List String :=
  hereFiles pats exts root entries ++ walkDirs pats exts root entries

/-- Specification-side inventory of the tree: every file of the tree with
its full path, its own name, and the names of the directories between the
root and the file (outermost first). -/
def allFilesAnc (pre : String) (anc : List String) : FS →
    List (String × String × List String)
  | .nilF => []
  | .file fn rest => (joinPath pre fn, fn, anc) :: allFilesAnc pre anc rest
  | .dir n c rest =>
    allFilesAnc (joinPath pre n) (anc ++ [n]) c ++ allFilesAnc pre anc rest

/-- Statement of the claim that discovery yields a file if and only if its
extension is allow-listed and no exclusion pattern matches its full path
(quantified over the files of the tree). -/
def discoverIffPathFiltered (pats : List Pattern) (exts : List String)
    (root : String) (entries : FS) : Prop :=
  ∀ e ∈ allFilesAnc root [] entries,
    (e.1 ∈ discover pats exts root entries ↔
      (extOkB exts e.2.1 = true
        ∧ pats.any (fun p => psearch p e.1) = false))

/-!
## Enhanced analyzer: file cap and batch selection

`analyze_project` caps discovery at 5 files; `run_batch_analysis` analyzes
every listed path that exists.
-/

/-- Model of the cap in `analyze_project`: `if len(code_files) > 5:
code_files = code_files[:5]`. -/
def projectFilesCapped (code_files : List String) : List String :=
  if 5 < code_files.length then code_files.take 5 else code_files

/-- Whether `analyze_project` prints the cap warning. -/
def projectCapWarning (code_files : List String) : Bool :=
  decide (5 < code_files.length)

/-- Files analyzed by `run_batch_analysis`: every listed path for which
`os.path.exists` holds, in list order, with no cap. -/
def batchFilesAnalyzed (pathExists : String → Bool) (file_list : List String) :
    List String :=
  file_list.filter pathExists

end Dove.Enhanced

namespace Dove.Enhanced

/-!
## Enhanced analyzer: dispatch, per-file analysis and batch run

`analyze_code_snippet` (enhanced), `_generate_error_response`,
`read_code_file`, `analyze_code_file`, `run_batch_analysis`.
-/

open Dove

/-- Status of a path on disk: missing, present but unreadable (`open` or
`read` raises), or readable with the given content. -/
inductive FileStatus where
  | absent : FileStatus
  | unreadable : FileStatus
  | readable : String → FileStatus
deriving DecidableEq

/-- Model of `read_code_file`: the `except` handler prints the error and
returns `None` for an absent or unreadable path. -/
def read_code_file (fsys : String → FileStatus) (filepath : String) :
    Option String :=
  match fsys filepath with
  | .readable c => some c
  | _ => none

/-- Outcome of the enhanced dispatcher's round trip: an HTTP error, a body
that is not valid JSON, any other exception, or a parsed response body. -/
inductive Net2 where
  | httpError : Nat → String → Net2
  | jsonError : Net2
  | otherExn : String → Net2
  | ok : JValue → Net2

/-- Model of `_generate_error_response`. -/
def generate_error_response (now error_message : String) : String :=
  "# O3 Analysis Report Error\n\n*Generated on: " ++ now ++ "*\n\n## Error\n"
    ++ error_message
    ++ "\n\nPlease check your API key, network connection, and try again.\n"

/-- Model of the enhanced `analyze_code_snippet`.  Every branch returns a
string: the reply content on success, or an error report.  A response with
a usable `choices` chain returns its content; one without is reported as
`"API response error"`; a response whose inner chain raises is caught by
the generic handler and reported with the exception text (modelled here by
the same error report; no caller inspects the message). -/
def analyze_code_snippet (now : String) (net : Net2) : String :=
  match net with
  | .ok resp =>
    match Legacy.extractContent resp with
    | some content => content
    | none => generate_error_response now "API response error"
  | .httpError c r =>
    generate_error_response now ("HTTP Error: " ++ toString c ++ " - " ++ r)
  | .jsonError => generate_error_response now "Invalid JSON response"
  | .otherExn m => generate_error_response now m

/-- Model of the enhanced `analyze_code_file`: `None` when the file cannot
be read, otherwise the dispatcher's string result (which the source also
writes to a per-file report). -/
def analyze_code_file (fsys : String → FileStatus) (net : String → Net2)
    (now filepath : String) : Option String :=
  match read_code_file fsys filepath with
  | none => none
  | some _ => some (analyze_code_snippet now (net filepath))

/-- Per-unit loop of `run_batch_analysis`: paths failing `os.path.exists`
are skipped with a warning; every other path is analyzed and its
`(filepath, result)` pair is appended — including `result = None` for an
existing but unreadable file. -/
def batchResults (fsys : String → FileStatus) (net : String → Net2)
    (now : String) : List String → List (String × Option String)
  | [] => []
  | fp :: rest =>
    match fsys fp with
    | .absent => batchResults fsys net now rest
    | _ => (fp, analyze_code_file fsys net now fp)
        :: batchResults fsys net now rest

/-- Index of the first occurrence of `sub` in `s`, if any. -/
def findSubstrIdx (sub : List Char) : List Char → Option Nat
  | [] => if sub.isEmpty then some 0 else none
  | s@(_ :: t) =>
    if s.take sub.length == sub then some 0
    else (findSubstrIdx sub t).map (fun n => n + 1)

/-- Model of `re.search(r"## Summary\n\n(.*?)(?=\n##|\Z)", r, re.DOTALL)`:
group 1 is the shortest run after the first `"## Summary\n\n"` that is
followed by `"\n##"` or the end of the string. -/
def reSearchSummary (r : String) : Option String :=
  let cs := r.toList
  match findSubstrIdx ("## Summary\n\n".toList) cs with
  | none => none
  | some i =>
    let after := cs.drop (i + 12)
    let j := (findSubstrIdx ("\n##".toList) after).getD after.length
    some (String.mk (after.take j))

/-- Model of `os.path.basename`. -/
def baseName (fp : String) : String :=
  (pySplit fp '/').getLastD ""

/-- Summary section of the batch report.  For each recorded pair the
source runs `re.search(..., result, ...)`; when `result` is `None` that
call raises `TypeError` (modelled as `Except.error`), which nothing in
`run_batch_analysis` catches. -/
def summaryEntries : List (String × Option String) → Except String (List String)
  | [] => .ok []
  | (_, none) :: _ =>
    .error "TypeError: expected string or bytes-like object"
  | (fp, some r) :: rest =>
    (summaryEntries rest).map (fun l =>
      (match reSearchSummary r with
       | some s => ["### " ++ baseName fp ++ "\n\n" ++ s.trim ++ "\n\n"]
       | none => [])
      ++ l)

/-- Model of `run_batch_analysis`: the batch report text, or the uncaught
exception raised while building it. -/
def run_batch_analysis (fsys : String → FileStatus) (net : String → Net2)
    (now : String) (file_list : List String) : Except String String :=
  let results := batchResults fsys net now file_list
  let header := "# Batch Analysis Report\n\n*Generated on: " ++ now
    ++ "*\n\n## Files Analyzed\n\n"
  let filesSec := String.join (results.map (fun pr => "- " ++ pr.1 ++ "\n"))
  match summaryEntries results with
  | .error e => .error e
  | .ok entries =>
    .ok (header ++ filesSec ++ "\n## Summary of Findings\n\n"
         ++ String.join entries)

end Dove.Enhanced

namespace Dove.Legacy

/-!
## Legacy analyzer: severity histogram of `save_report`

`save_report` counts findings into `severity_counts = {"high": 0,
"medium": 0, "low": 0, "info": 0}` via `severity_counts[severity] += 1`
with `severity = finding.get("severity", "info")`; a severity outside the
four keys raises `KeyError` (and a non-dict finding or unhashable severity
raises before that).
-/

open Dove

/-- Severity histogram counters of `save_report`. -/
structure SevCounts where
  high : Nat
  medium : Nat
  low : Nat
  info : Nat
deriving DecidableEq

/-- Single update `severity_counts[severity] += 1`. -/
def bumpSeverity (c : SevCounts) (s : String) : Except String SevCounts :=
  if s == "high" then .ok { c with high := c.high + 1 }
  else if s == "medium" then .ok { c with medium := c.medium + 1 }
  else if s == "low" then .ok { c with low := c.low + 1 }
  else if s == "info" then .ok { c with info := c.info + 1 }
  else .error ("KeyError: " ++ s)

/-- One finding's contribution: `finding.get("severity", "info")` followed
by the counter update. -/
def histStep (c : SevCounts) (finding : JValue) : Except String SevCounts :=
  match finding with
  | .obj fl =>
    match (jLookup fl "severity").getD (.str "info") with
    | .str s => bumpSeverity c s
    | _ => .error "TypeError: unhashable severity"
  | _ => .error "AttributeError: finding has no attribute get"

/-- Histogram loop of `save_report` over the findings list. -/
def severityHistogramAux (c : SevCounts) : List JValue → Except String SevCounts
  | [] => .ok c
  | f :: rest =>
    match histStep c f with
    | .error e => .error e
    | .ok c' => severityHistogramAux c' rest

/-- Severity histogram of `save_report`, starting from all-zero
counters. -/
def severityHistogram (findings : List JValue) : Except String SevCounts :=
  severityHistogramAux ⟨0, 0, 0, 0⟩ findings

/-- Validity of one finding for the histogram: its severity is absent
(defaulting to info) or one of the four counted strings. -/
def validSevB (finding : JValue) : Bool :=
  match finding with
  | .obj fl =>
    match jLookup fl "severity" with
    | none => true
    | some (.str s) =>
      s == "high" || s == "medium" || s == "low" || s == "info"
    | some _ => false
  | _ => false

end Dove.Legacy

namespace Dove.Legacy

/-!
## Legacy analyzer: consolidated report scan

`_create_consolidated_report` re-reads each rendered per-unit report,
splits its text on `"### "`, and for each section (after the first split
piece) scans the lines for the first one containing `"**Severity:**"`;
the cleaned severity decides whether the section enters the critical
findings table.
-/

open Dove

/-- Row of the critical-findings table (the dict appended to
`critical_findings`). -/
structure Row where
  report : String
  title : String
  severity : String
  details : String
deriving DecidableEq

/-- Marker scanned for in each section line. -/
def severityMarker : String := "**Severity:**"

/-- Line loop of `_create_consolidated_report` over one section: at the
first line containing the marker the loop computes
`line.replace('**Severity:**', '').strip()`, appends a row when the
lowercased severity is `high` or `medium`, and breaks either way. -/
def scanSeverityLoop (reportName title details : String) :
    List String → List Row
  | [] => []
  | l :: rest =>
    if strContains l severityMarker then
      let sev := (l.replace severityMarker "").trim
      if pyLower sev == "high" || pyLower sev == "medium" then
        [⟨reportName, title, sev, details⟩]
      else []
    else scanSeverityLoop reportName title details rest

/-- Rows contributed by one section: `lines = section.split('\n')`,
`title = lines[0]`, `details = '\n'.join(lines)`. -/
def sectionRows (reportName sect : String) : List Row :=
  let lines := pySplit sect '\n'
  scanSeverityLoop reportName (lines.headD "") (joinNl lines) lines

/-- Model of the collection loop of `_create_consolidated_report`: for
each report content, the report name is the first line with the
`"# O3 Analysis Report: "` heading removed, and each section after the
first `"### "` split piece is scanned. -/
def criticalFindings (reports : List String) : List Row :=
  reports.flatMap (fun content =>
    let reportName :=
      ((pySplit content '\n').headD "").replace "# O3 Analysis Report: " ""
    ((content.splitOn "### ").drop 1).flatMap (sectionRows reportName))

/-- Specification-side rendered severity of a section: the cleaned text of
the first line carrying the severity marker, if any. -/
def renderedSeverity (sect : String) : Option String :=
  ((pySplit sect '\n').find? (fun l => strContains l severityMarker)).map
    (fun l => (l.replace severityMarker "").trim)

/-- Specification-side criticality test: the rendered severity reads
`High` or `Medium`, case-insensitively. -/
def specIsCritical (sect : String) : Bool :=
  match renderedSeverity sect with
  | some s => pyLower s == "high" || pyLower s == "medium"
  | none => false

/-- Specification-side row for a critical section. -/
def specRow (reportName sect : String) : Row :=
  ⟨reportName, (pySplit sect '\n').headD "",
   (renderedSeverity sect).getD "", joinNl (pySplit sect '\n')⟩

/-- Specification-side table: exactly one row per section whose rendered
severity reads High or Medium, across all folded reports, in order. -/
def specCriticalFindings (reports : List String) : List Row :=
  reports.flatMap (fun content =>
    let reportName :=
      ((pySplit content '\n').headD "").replace "# O3 Analysis Report: " ""
    (((content.splitOn "### ").drop 1).filter specIsCritical).map
      (specRow reportName))

end Dove.Legacy

namespace Dove.Enhanced

/-!
## Specification-side Python extraction (claim C7's close rule)

The claimed rule for indentation-delimited sources: the unit is the
declaration line plus the following lines, closing at (and excluding) the
first line whose indentation is less than or equal to the declaration
line's indentation.
-/

open Dove

/-- Leading-blank count of a line. -/
def indentOf (line : String) : Nat :=
  (line.toList.takeWhile isIndentChar).length

/-- Extraction as the claim states it: find the first line containing the
declaration token `"def " + name`, keep it and every following line of
strictly greater indentation, and close at the first line whose
indentation is less than or equal to the declaration's. -/
def specPyExtract (code fname : String) : Option String :=
  let lines := pySplit code '\n'
  match lines.dropWhile (fun l => !(strContains l ("def " ++ fname))) with
  | [] => none
  | decl :: rest =>
    some (joinNl (decl :: rest.takeWhile (fun l => indentOf decl < indentOf l)))

/-- Acceptable final segment for one collected body line: empty (a blank
line inside the `\n+` runs) or opened by a blank character. -/
def segOK (seg : List Char) : Bool :=
  seg.isEmpty || isIndentChar (seg.headD ' ')

/-- Well-formedness of a `pyGo` state: a pending line is nonempty, was
opened by a blank character, and contains no newline yet. -/
def stOK : PyState → Bool
  | .start => true
  | .absorb => true
  | .pending pend =>
    segOK pend.reverse && !pend.isEmpty && !(pend.any (fun c => c == '\n'))

/-- Characters already consumed by a pending line (in source order). -/
def statePend : PyState → List Char
  | .start => []
  | .absorb => []
  | .pending pend => pend.reverse

/-- Stop condition of the body scan: the remainder is empty, starts with a
non-blank character, or is a final blank-led line with no newline left. -/
def stopOK (rest : List Char) : Bool :=
  rest.isEmpty || !isIndentChar (rest.headD ' ')
    || !(rest.any (fun c => c == '\n'))

end Dove.Enhanced

namespace Dove

/-!
## Claim statements and concrete instances

Propositions that state claims to be refuted, and the concrete inputs the
counterexamples and witnesses use.
-/

/-- Statement that a dispatch result carries a `findings` key bound to a
list. -/
def hasFindingsList (v : JValue) : Prop :=
  ∃ fields l, v = .obj fields ∧ jLookup fields "findings" = some (.arr l)

/-- Content parser that yields an object whose `findings` entry is the
number 42 (a well-formed JSON object with a non-list `findings`). -/
def parseFindingsNum : String → Option JValue :=
  fun _ => some (.obj [("findings", .num 42)])

/-- Content parser that yields an object with no `findings` entry. -/
def parseNoFindings : String → Option JValue :=
  fun _ => some (.obj [("note", .null)])

/-- Content parser that yields one finding with severity `critical`. -/
def parseCriticalFinding : String → Option JValue :=
  fun _ => some (.obj
    [("findings", .arr [.obj [("severity", .str "critical")]])])

/-- Backend response body whose reply content is the string `"x"`. -/
def respContentX : JValue :=
  .obj [("choices", .arr
    [.obj [("message", .obj [("content", .str "x")])]])]

/-- Source text of the brace-extraction test case. -/
def buySource : String := "function buy() \x7b if (x) \x7b y(); \x7d \x7d"

/-- Source text of the indentation-extraction test case: a function `f`
declared at indentation 4, with a following line at the same
indentation. -/
def nestedDefSource : String :=
  "x\n    def f(a):\n        return a\n    print(1)\nz\n"

/-- Exclusion patterns for the discovery counterexample: the single
end-anchored pattern `node_modules$`. -/
def anchoredPats : List Enhanced.Pattern := [⟨"node_modules", true⟩]

/-- Tree for the discovery counterexample: one directory `node_modules`
holding one allow-listed file `a.py`. -/
def nodeModulesTree : Enhanced.FS :=
  .dir "node_modules" (.file "a.py" .nilF) .nilF

/-- Filesystem for the batch-run test: `a.py` exists but is unreadable,
`b.py` is readable, everything else is absent. -/
def batchFS : String → Enhanced.FileStatus :=
  fun fp =>
    if fp == "a.py" then .unreadable
    else if fp == "b.py" then .readable "print(1)\n"
    else .absent

/-- Network oracle for the batch-run test: every dispatch gets a body that
is not valid JSON (a transport-level failure handled by the dispatcher's
fallback). -/
def batchNet : String → Enhanced.Net2 := fun _ => .jsonError

end Dove

namespace Dove

/-- Twelve distinct paths, used to exercise the cap and the batch
selection. -/
def twelveFiles : List String :=
  ["f1.py", "f2.py", "f3.py", "f4.py", "f5.py", "f6.py",
   "f7.py", "f8.py", "f9.py", "f10.py", "f11.py", "f12.py"]

end Dove

namespace Dove

open Legacy Enhanced

/-!
## Helper lemmas
-/

/-- Line loop of the consolidated scan equals a first-match selection. -/
theorem scanSeverityLoop_eq (rn t d : String) :
    ∀ lines : List String,
      scanSeverityLoop rn t d lines =
        match lines.find? (fun l => strContains l severityMarker) with
        | none => []
        | some l =>
          if pyLower ((l.replace severityMarker "").trim) == "high"
              || pyLower ((l.replace severityMarker "").trim) == "medium" then
            [⟨rn, t, (l.replace severityMarker "").trim, d⟩]
          else []
  | [] => rfl
  | l :: rest => by
    by_cases hc : strContains l severityMarker
    · simp [scanSeverityLoop, List.find?, hc]
    · simp only [Bool.not_eq_true] at hc
      simp [scanSeverityLoop, List.find?, hc, scanSeverityLoop_eq rn t d rest]

/-- One section contributes a row exactly when its rendered severity is
critical. -/
theorem sectionRows_eq_spec (rn s : String) :
    sectionRows rn s = if specIsCritical s then [specRow rn s] else [] := by
  unfold sectionRows specIsCritical specRow renderedSeverity
  rw [scanSeverityLoop_eq]
  cases hfind : (pySplit s '\n').find? (fun l => strContains l severityMarker) with
  | none => simp
  | some l => simp

/-- Binding a singleton-or-empty function over a list is a filter followed
by a map. -/
theorem flatMap_ite_filter {α β : Type} (p : α → Bool) (g : α → β) :
    ∀ l : List α,
      (l.flatMap (fun s => if p s then [g s] else []))
        = (l.filter p).map g
  | [] => rfl
  | a :: rest => by
    by_cases hp : p a
    · simp [List.flatMap_cons, hp, flatMap_ite_filter p g rest]
    · simp only [Bool.not_eq_true] at hp
      simp [List.flatMap_cons, hp, flatMap_ite_filter p g rest]

/-- Section scan over a report's sections, in filtered-map form. -/
theorem sections_flatMap_eq (rn : String) (sections : List String) :
    sections.flatMap (sectionRows rn)
      = (sections.filter specIsCritical).map (specRow rn) := by
  rw [show sectionRows rn
        = fun s => if specIsCritical s then [specRow rn s] else []
      from funext (sectionRows_eq_spec rn)]
  exact flatMap_ite_filter _ _ sections

/-- The code's critical-findings collection equals the specification-side
table. -/
theorem criticalFindings_eq_spec (reports : List String) :
    criticalFindings reports = specCriticalFindings reports := by
  unfold criticalFindings specCriticalFindings
  simp only [sections_flatMap_eq]

/-- Every collected row has a rendered severity reading high or medium. -/
theorem mem_criticalFindings_sev (reports : List String) (r : Row)
    (hr : r ∈ criticalFindings reports) :
    (pyLower r.severity == "high" || pyLower r.severity == "medium") = true := by
  rw [criticalFindings_eq_spec] at hr
  unfold specCriticalFindings at hr
  rw [List.mem_flatMap] at hr
  obtain ⟨content, _, hmem⟩ := hr
  rw [List.mem_map] at hmem
  obtain ⟨sect, hsect, hrow⟩ := hmem
  rw [List.mem_filter] at hsect
  obtain ⟨_, hcrit⟩ := hsect
  unfold specIsCritical at hcrit
  subst hrow
  unfold specRow
  cases hrv : renderedSeverity sect with
  | none => rw [hrv] at hcrit; exact absurd hcrit (by simp)
  | some sev => rw [hrv] at hcrit; simpa [hrv] using hcrit

/-- Ancestor lists recorded by the inventory extend the accumulator. -/
theorem allFilesAnc_anc_shape :
    ∀ (t : FS) (pre : String) (anc0 : List String)
      (fp fn : String) (anc : List String),
      (fp, fn, anc) ∈ allFilesAnc pre anc0 t → ∃ tl, anc = anc0 ++ tl := by
  intro t
  induction t with
  | nilF => intro pre anc0 fp fn anc h; exact absurd h (by simp [allFilesAnc])
  | file n rest ih =>
    intro pre anc0 fp fn anc h
    rw [allFilesAnc, List.mem_cons] at h
    rcases h with h | h
    · simp only [Prod.mk.injEq] at h
      exact ⟨[], by simp [h.2.2]⟩
    · exact ih pre anc0 fp fn anc h
  | dir n c rest ihc ihr =>
    intro pre anc0 fp fn anc h
    rw [allFilesAnc, List.mem_append] at h
    rcases h with h | h
    · obtain ⟨tl, htl⟩ := ihc (joinPath pre n) (anc0 ++ [n]) fp fn anc h
      exact ⟨n :: tl, by simp [htl]⟩
    · exact ihr pre anc0 fp fn anc h

/-- Membership characterization of the walk, generalized over the prefix
path and the (all-unpruned) ancestor accumulator. -/
theorem mem_walk (pats : List Pattern) (exts : List String) :
    ∀ (t : FS) (pre : String) (anc0 : List String) (fp : String),
      anc0.all (fun a => !(pruneB pats a)) = true →
      (fp ∈ hereFiles pats exts pre t ++ walkDirs pats exts pre t ↔
        ∃ fn anc, (fp, fn, anc) ∈ allFilesAnc pre anc0 t ∧
          extOkB exts fn = true ∧
          pats.any (fun p => psearch p fp) = false ∧
          anc.all (fun a => !(pruneB pats a)) = true) := by
  intro t
  induction t with
  | nilF =>
    intro pre anc0 fp h0
    simp [hereFiles, walkDirs, allFilesAnc]
  | file fn0 rest ih =>
    intro pre anc0 fp h0
    rw [hereFiles, walkDirs, allFilesAnc]
    constructor
    · intro hm
      rw [List.append_assoc, List.mem_append] at hm
      rcases hm with hm | hm
      · by_cases hsrch : pats.any (fun p => psearch p (joinPath pre fn0)) = true
        · rw [if_pos hsrch] at hm; exact absurd hm (by simp)
        · rw [Bool.not_eq_true] at hsrch
          rw [if_neg (by simp [hsrch])] at hm
          by_cases hext : extOkB exts fn0 = true
          · rw [if_pos hext] at hm
            rw [List.mem_singleton] at hm
            subst hm
            exact ⟨fn0, anc0, List.mem_cons_self .., hext, hsrch, h0⟩
          · rw [if_neg hext] at hm; exact absurd hm (by simp)
      · obtain ⟨fn, anc, hmem, h1, h2, h3⟩ := (ih pre anc0 fp h0).mp hm
        exact ⟨fn, anc, List.mem_cons_of_mem _ hmem, h1, h2, h3⟩
    · rintro ⟨fn, anc, hmem, h1, h2, h3⟩
      rw [List.append_assoc, List.mem_append]
      rw [List.mem_cons] at hmem
      rcases hmem with hmem | hmem
      · simp only [Prod.mk.injEq] at hmem
        obtain ⟨hfp, hfn, hanc⟩ := hmem
        subst hfp; subst hfn
        left
        rw [if_neg (by simp [h2]), if_pos h1]
        exact List.mem_singleton.mpr rfl
      · exact Or.inr ((ih pre anc0 fp h0).mpr ⟨fn, anc, hmem, h1, h2, h3⟩)
  | dir n c rest ihc ihr =>
    intro pre anc0 fp h0
    rw [hereFiles, walkDirs, allFilesAnc]
    by_cases hprune : pruneB pats n = true
    · rw [if_pos hprune]
      constructor
      · intro hm
        simp only [List.nil_append] at hm
        obtain ⟨fn, anc, hmem, h1, h2, h3⟩ := (ihr pre anc0 fp h0).mp hm
        exact ⟨fn, anc, List.mem_append_right _ hmem, h1, h2, h3⟩
      · rintro ⟨fn, anc, hmem, h1, h2, h3⟩
        simp only [List.nil_append]
        rw [List.mem_append] at hmem
        rcases hmem with hmem | hmem
        · obtain ⟨tl, htl⟩ :=
            allFilesAnc_anc_shape c (joinPath pre n) (anc0 ++ [n]) fp fn anc hmem
          subst htl
          simp only [List.all_append, Bool.and_eq_true] at h3
          have hn := h3.1.2
          simp only [List.all_cons, List.all_nil, Bool.and_true] at hn
          rw [hprune] at hn
          exact absurd hn (by decide)
        · exact (ihr pre anc0 fp h0).mpr ⟨fn, anc, hmem, h1, h2, h3⟩
    · rw [Bool.not_eq_true] at hprune
      rw [if_neg (by simp [hprune])]
      have h0' : (anc0 ++ [n]).all (fun a => !(pruneB pats a)) = true := by
        rw [List.all_append, Bool.and_eq_true]
        exact ⟨h0, by simp [hprune]⟩
      have hc := ihc (joinPath pre n) (anc0 ++ [n]) fp h0'
      have hr := ihr pre anc0 fp h0
      rw [List.mem_append] at hc hr
      constructor
      · intro hm
        simp only [List.mem_append] at hm
        rcases hm with hA | (hXY | hB)
        · obtain ⟨fn, anc, hmem, h1, h2, h3⟩ := hr.mp (Or.inl hA)
          exact ⟨fn, anc, List.mem_append_right _ hmem, h1, h2, h3⟩
        · obtain ⟨fn, anc, hmem, h1, h2, h3⟩ := hc.mp hXY
          exact ⟨fn, anc, List.mem_append_left _ hmem, h1, h2, h3⟩
        · obtain ⟨fn, anc, hmem, h1, h2, h3⟩ := hr.mp (Or.inr hB)
          exact ⟨fn, anc, List.mem_append_right _ hmem, h1, h2, h3⟩
      · rintro ⟨fn, anc, hmem, h1, h2, h3⟩
        simp only [List.mem_append]
        rw [List.mem_append] at hmem
        rcases hmem with hmem | hmem
        · exact Or.inr (Or.inl (hc.mpr ⟨fn, anc, hmem, h1, h2, h3⟩))
        · rcases hr.mpr ⟨fn, anc, hmem, h1, h2, h3⟩ with hA | hB
          · exact Or.inl hA
          · exact Or.inr (Or.inr hB)

/-- Blank characters are not newlines. -/
theorem indent_ne_nl (c : Char) (h : isIndentChar c = true) :
    (c == '\n') = false := by
  rcases Bool.or_eq_true _ _ |>.mp h with h1 | h1 <;>
    rw [beq_iff_eq] at h1 <;> subst h1 <;> decide

/-- Head with default of an append from a nonempty list. -/
theorem headD_append_of_ne_nil (l l' : List Char) (d : Char) (h : l ≠ []) :
    (l ++ l').headD d = l.headD d := by
  cases l with
  | nil => exact absurd rfl h
  | cons a t => rfl

/-- Splitting distributes over a separator-free chunk followed by a
separator. -/
theorem splitChar_append (sep : Char) (b : List Char) :
    ∀ a : List Char, a.any (fun c => c == sep) = false →
      splitChar sep (a ++ sep :: b) = a :: splitChar sep b := by
  intro a
  induction a with
  | nil => intro _; simp [splitChar]
  | cons x xs ih =>
    intro h
    simp only [List.any_cons, Bool.or_eq_false_iff] at h
    simp [splitChar, h.1, ih h.2]

end Dove

namespace Dove

open Legacy Enhanced

/-!
## Claim theorems
-/

/-- C1 (amended): the legacy dispatcher `analyze_code_snippet` always
returns an object carrying a `findings` key (never `None`); the bound
value is a list in every path except the one where the reply content
parses to a JSON object, in which case that object's `findings` entry is
passed through verbatim (a list only when the backend supplies one, and
`[]` when the entry is absent). -/
theorem C1_dispatch_findings_key (parse : String → Option JValue)
    (now : String) (net : NetOutcome) (code desc : String)
    (foc : List String) :
    ∃ fields v,
      Legacy.analyze_code_snippet parse now net code desc foc = .obj fields ∧
      jLookup fields "findings" = some v ∧
      ((∃ l, v = .arr l) ∨
        ∃ r content cf, net = .ok r ∧ extractContent r = some content ∧
          parse content = some (.obj cf) ∧ jLookup cf "findings" = some v) := by
  unfold Legacy.analyze_code_snippet
  cases net with
  | exn =>
    exact ⟨_, _, rfl, by rfl, Or.inl ⟨_, rfl⟩⟩
  | ok r =>
    cases hx : extractContent r with
    | none =>
      simp only [hx]
      exact ⟨_, _, rfl, by rfl, Or.inl ⟨_, rfl⟩⟩
    | some content =>
      simp only [hx]
      cases hp : parse content with
      | none =>
        simp only [hp]
        exact ⟨_, _, rfl, by rfl, Or.inl ⟨_, rfl⟩⟩
      | some v =>
        try simp only [hp]
        cases v with
        | obj cf =>
          cases hl : jLookup cf "findings" with
          | none =>
            simp only [hl, Option.getD]
            exact ⟨_, _, rfl, by rfl, Or.inl ⟨_, rfl⟩⟩
          | some w =>
            simp only [hl, Option.getD]
            exact ⟨_, _, rfl, by rfl,
              Or.inr ⟨r, content, cf, rfl, hx, hp, hl⟩⟩
        | null => exact ⟨_, _, rfl, by rfl, Or.inl ⟨_, rfl⟩⟩
        | bool b => exact ⟨_, _, rfl, by rfl, Or.inl ⟨_, rfl⟩⟩
        | num n => exact ⟨_, _, rfl, by rfl, Or.inl ⟨_, rfl⟩⟩
        | str s => exact ⟨_, _, rfl, by rfl, Or.inl ⟨_, rfl⟩⟩
        | arr l => exact ⟨_, _, rfl, by rfl, Or.inl ⟨_, rfl⟩⟩

/-- C1 (counterexample): when the backend call succeeds and the reply
content parses to the object `{"findings": 42}`, the result's `findings`
value is the number 42, not a list — refuting "a `findings` key bound to a
(possibly empty) list" for every input. -/
theorem C1_counterexample :
    ¬ hasFindingsList
        (Legacy.analyze_code_snippet parseFindingsNum "T" (.ok respContentX)
          "c" "d" []) := by
  have hres : Legacy.analyze_code_snippet parseFindingsNum "T"
      (.ok respContentX) "c" "d" []
      = .obj [("status", .str "success"), ("timestamp", .str "T"),
              ("findings", .num 42)] := by rfl
  rw [hres]
  rintro ⟨fields, l, hf, hl⟩
  injection hf with h2
  subst h2
  simp [jLookup, List.find?] at hl

/-- C2: for a description containing `tax` (case-insensitively) and none
of `reflection`, `transfer`, `_update`, the simulated fallback returns
exactly the two fixed taxation findings — Timestamp Dependence (severity
low) and Tax Rate Boundary Condition (severity info) — with identical
field values, independent of the code text, the focus areas, and (being a
pure function) of any source of randomness. -/
theorem C2_tax_fallback_deterministic (now desc : String)
    (foc : List String) (code : String)
    (h1 : strContains (pyLower desc) "tax" = true)
    (h2 : strContains (pyLower desc) "reflection" = false)
    (h3 : strContains (pyLower desc) "transfer" = false)
    (h4 : strContains (pyLower desc) "_update" = false) :
    simulatedFindings desc = [taxFinding1, taxFinding2] ∧
    simulate_analysis_response now desc foc code
      = .obj [("status", .str "success"), ("timestamp", .str now),
              ("findings", .arr [taxFinding1, taxFinding2])] := by
  have hf : simulatedFindings desc = [taxFinding1, taxFinding2] := by
    simp [simulatedFindings, h1, h2, h3, h4]
  refine ⟨hf, ?_⟩
  unfold simulate_analysis_response
  rw [hf]

/-- C2 (witness): the description `"Tax day"` satisfies the keyword
conditions and produces exactly the two taxation findings. -/
theorem C2_witness :
    strContains (pyLower "Tax day") "tax" = true ∧
    strContains (pyLower "Tax day") "reflection" = false ∧
    strContains (pyLower "Tax day") "transfer" = false ∧
    strContains (pyLower "Tax day") "_update" = false ∧
    simulatedFindings "Tax day" = [taxFinding1, taxFinding2] :=
  ⟨by decide, by decide, by decide, by decide,
   (C2_tax_fallback_deterministic "T" "Tax day" [] "code"
     (by decide) (by decide) (by decide) (by decide)).1⟩

/-- C3: on the source text `function buy() { if (x) { y(); } }` with
target `buy`, the legacy extractor returns exactly that text, but the
enhanced `.sol` extractor prepends `function buy` to a regex match that
already starts with it, duplicating the declaration head. -/
theorem C3_extraction_at_buy_source :
    Legacy.extract_function buySource "buy" = some buySource ∧
    Enhanced.enhancedSolExtract buySource "buy"
      = some ("function buy" ++ buySource) := ⟨rfl, rfl⟩

/-- C4: in project mode, more than 5 discovered files are capped to
exactly the first 5 with a warning; in batch mode, every existing listed
file is selected with no cap. -/
theorem C4_project_cap_batch_uncapped (files : List String)
    (h : 5 < files.length) (pathExists : String → Bool)
    (batch : List String) (hb : ∀ f ∈ batch, pathExists f = true) :
    projectFilesCapped files = files.take 5 ∧
    (projectFilesCapped files).length = 5 ∧
    projectCapWarning files = true ∧
    batchFilesAnalyzed pathExists batch = batch := by
  refine ⟨if_pos h, ?_, ?_, ?_⟩
  · simp only [projectFilesCapped, if_pos h, List.length_take]
    omega
  · simp [projectCapWarning, h]
  · simpa [batchFilesAnalyzed] using List.filter_eq_self.mpr hb

/-- C4 (witness): 12 discovered files are capped to the first 5 with a
warning, and a 12-path batch over existing files analyzes all 12. -/
theorem C4_witness :
    5 < twelveFiles.length ∧
    projectFilesCapped twelveFiles = twelveFiles.take 5 ∧
    projectCapWarning twelveFiles = true ∧
    batchFilesAnalyzed (fun _ => true) twelveFiles = twelveFiles ∧
    (batchFilesAnalyzed (fun _ => true) twelveFiles).length = 12 :=
  ⟨by decide,
   (C4_project_cap_batch_uncapped twelveFiles (by decide) (fun _ => true)
     twelveFiles (fun f _ => rfl)).1,
   (C4_project_cap_batch_uncapped twelveFiles (by decide) (fun _ => true)
     twelveFiles (fun f _ => rfl)).2.2.1,
   (C4_project_cap_batch_uncapped twelveFiles (by decide) (fun _ => true)
     twelveFiles (fun f _ => rfl)).2.2.2,
   by decide⟩

/-- C5 (amended): discovery yields a path exactly when the tree has a file
at that full path whose name has an allow-listed extension, whose full
path matches no exclusion pattern, and none of whose ancestor directories
below the root has a name that `re.match`-es an exclusion pattern (those
directories are pruned before traversal). -/
theorem C5_discovery_characterization (pats : List Pattern)
    (exts : List String) (root : String) (t : FS) (fp : String) :
    fp ∈ discover pats exts root t ↔
      ∃ fn anc, (fp, fn, anc) ∈ allFilesAnc root [] t ∧
        extOkB exts fn = true ∧
        pats.any (fun p => psearch p fp) = false ∧
        anc.all (fun a => !(pruneB pats a)) = true :=
  mem_walk pats exts t root [] fp rfl

/-- C5 (counterexample): with the end-anchored pattern `node_modules$`
and a `node_modules` directory holding `a.py`, the file's extension is
allow-listed and no pattern matches its full path, yet discovery does not
yield it (the directory is pruned by name) — refuting the
"if and only if" over extensions and full paths alone. -/
theorem C5_counterexample :
    ¬ discoverIffPathFiltered anchoredPats Enhanced.allowedExtensions "r"
        nodeModulesTree := by
  intro h
  have h2 := h ("r/node_modules/a.py", "a.py", ["node_modules"]) (by decide)
  exact absurd (h2.mpr (by decide)) (by decide)

/-- C5 (witness): discovery does yield an allow-listed file in an
unpruned subdirectory. -/
theorem C5_witness :
    "r/src/a.py" ∈ discover [⟨"node_modules", false⟩] allowedExtensions "r"
      (.dir "src" (.file "a.py" .nilF) .nilF) :=
  (C5_discovery_characterization [⟨"node_modules", false⟩] allowedExtensions
      "r" (.dir "src" (.file "a.py" .nilF) .nilF) "r/src/a.py").mpr
    ⟨"a.py", ["src"], by decide, by decide, by decide, by decide⟩

/-- C6: the consolidated report's critical-findings table contains
exactly one row per section whose rendered `**Severity:**` line reads High
or Medium (case-insensitively), across all folded reports, and no row
whose rendered severity is Low or Info. -/
theorem C6_critical_table_exact (reports : List String) :
    criticalFindings reports = specCriticalFindings reports ∧
    (criticalFindings reports).all
      (fun r => pyLower r.severity == "high"
        || pyLower r.severity == "medium") = true ∧
    (criticalFindings reports).all
      (fun r => !(pyLower r.severity == "low")
        && !(pyLower r.severity == "info")) = true := by
  refine ⟨criticalFindings_eq_spec reports, ?_, ?_⟩
  · rw [List.all_eq_true]
    intro r hr
    exact mem_criticalFindings_sev reports r hr
  · rw [List.all_eq_true]
    intro r hr
    have h2 := mem_criticalFindings_sev reports r hr
    rcases Bool.or_eq_true _ _ |>.mp h2 with h3 | h3
    · rw [beq_iff_eq] at h3
      rw [h3]
      decide
    · rw [beq_iff_eq] at h3
      rw [h3]
      decide

/-- C7 (amended): the body scan of the `.py` extraction collects only
lines opened by a space or tab (blank lines within newline runs allowed),
and it stops exactly at the end of input, at the first line opened by any
other character, or before a final blank-led line lacking its terminating
newline — not at the first line whose indentation is merely less than or
equal to the declaration's. -/
theorem C7_py_close_rule :
    ∀ (s : List Char) (st : PyState), stOK st = true →
      (pyGo st s).1 ++ (pyGo st s).2 = statePend st ++ s ∧
      (splitChar '\n' (pyGo st s).1).all segOK = true ∧
      stopOK (pyGo st s).2 = true := by
  intro s
  induction s with
  | nil =>
    intro st hst
    cases st with
    | start => exact ⟨rfl, by decide, rfl⟩
    | absorb => exact ⟨rfl, by decide, rfl⟩
    | pending pend =>
      simp only [stOK, Bool.and_eq_true, Bool.not_eq_true'] at hst
      refine ⟨by simp [pyGo, statePend], by rfl, ?_⟩
      have h3 : ((pyGo (.pending pend) []).2.any (fun c => c == '\n')) = false := by
        show (pend.reverse.any (fun c => c == '\n')) = false
        rw [List.any_reverse]
        exact hst.2
      unfold stopOK
      rw [h3]
      simp
  | cons chd tl ih =>
    intro st hst
    cases st with
    | start =>
      by_cases hc : isIndentChar chd = true
      · have heq : pyGo .start (chd :: tl) = pyGo (.pending [chd]) tl := by
          simp [pyGo, hc]
        have hst' : stOK (.pending [chd]) = true := by
          simp [stOK, segOK, hc, indent_ne_nl chd hc]
        obtain ⟨ha, hb, hcc⟩ := ih (.pending [chd]) hst'
        rw [heq]
        exact ⟨by rw [ha]; rfl, hb, hcc⟩
      · have heq : pyGo .start (chd :: tl) = ([], chd :: tl) := by
          simp [pyGo, hc]
        rw [heq]
        refine ⟨rfl, by rfl, ?_⟩
        unfold stopOK
        simp [hc]
    | absorb =>
      by_cases hnl : (chd == '\n') = true
      · rw [beq_iff_eq] at hnl
        subst hnl
        have heq : pyGo .absorb ('\n' :: tl)
            = ('\n' :: (pyGo .absorb tl).1, (pyGo .absorb tl).2) := by
          simp [pyGo]
        obtain ⟨ha, hb, hcc⟩ := ih .absorb rfl
        rw [heq]
        refine ⟨?_, ?_, hcc⟩
        · show '\n' :: (pyGo .absorb tl).1 ++ (pyGo .absorb tl).2
            = statePend .absorb ++ '\n' :: tl
          simp only [statePend, List.nil_append, List.cons_append]
          simp only [statePend, List.nil_append] at ha
          rw [ha]
        · show (splitChar '\n' ('\n' :: (pyGo .absorb tl).1)).all segOK = true
          simp only [splitChar, beq_self_eq_true, if_true]
          simp [List.all_cons, segOK, hb]
      · by_cases hc : isIndentChar chd = true
        · have heq : pyGo .absorb (chd :: tl) = pyGo (.pending [chd]) tl := by
            simp [pyGo, hnl, hc]
          have hst' : stOK (.pending [chd]) = true := by
            simp [stOK, segOK, hc, indent_ne_nl chd hc]
          obtain ⟨ha, hb, hcc⟩ := ih (.pending [chd]) hst'
          rw [heq]
          exact ⟨by rw [ha]; rfl, hb, hcc⟩
        · have heq : pyGo .absorb (chd :: tl) = ([], chd :: tl) := by
            simp [pyGo, hnl, hc]
          rw [heq]
          refine ⟨rfl, by rfl, ?_⟩
          unfold stopOK
          simp [hc]
    | pending pend =>
      simp only [stOK, Bool.and_eq_true, Bool.not_eq_true'] at hst
      obtain ⟨⟨hseg, hne⟩, hnonl⟩ := hst
      have hne2 : pend.reverse ≠ [] := by
        cases pend with
        | nil => simp at hne
        | cons a t => simp
      by_cases hnl : (chd == '\n') = true
      · rw [beq_iff_eq] at hnl
        subst hnl
        have heq : pyGo (.pending pend) ('\n' :: tl)
            = (pend.reverse ++ '\n' :: (pyGo .absorb tl).1,
               (pyGo .absorb tl).2) := by
          simp [pyGo]
        obtain ⟨ha, hb, hcc⟩ := ih .absorb rfl
        rw [heq]
        refine ⟨?_, ?_, hcc⟩
        · show (pend.reverse ++ '\n' :: (pyGo .absorb tl).1)
              ++ (pyGo .absorb tl).2 = statePend (.pending pend) ++ '\n' :: tl
          simp only [statePend, List.append_assoc, List.cons_append]
          simp only [statePend, List.nil_append] at ha
          rw [ha]
        · show (splitChar '\n'
              (pend.reverse ++ '\n' :: (pyGo .absorb tl).1)).all segOK = true
          rw [splitChar_append '\n' _ pend.reverse
            (by rw [List.any_reverse]; exact hnonl)]
          simp [List.all_cons, hseg, hb]
      · have heq : pyGo (.pending pend) (chd :: tl)
            = pyGo (.pending (chd :: pend)) tl := by
          simp [pyGo, hnl]
        have hst' : stOK (.pending (chd :: pend)) = true := by
          simp only [stOK, Bool.and_eq_true, Bool.not_eq_true']
          refine ⟨⟨?_, by simp⟩, ?_⟩
          · show segOK (chd :: pend).reverse = true
            rw [List.reverse_cons]
            unfold segOK at hseg ⊢
            rw [headD_append_of_ne_nil _ _ _ hne2]
            rcases Bool.or_eq_true _ _ |>.mp hseg with h1 | h1
            · rw [List.isEmpty_iff] at h1
              exact absurd h1 hne2
            · rw [h1, Bool.or_true]
          · show ((chd :: pend).any (fun c => c == '\n')) = false
            have hnl' : (chd == '\n') = false := by simpa using hnl
            rw [List.any_cons, hnl', hnonl]
            rfl
        obtain ⟨ha, hb, hcc⟩ := ih (.pending (chd :: pend)) hst'
        rw [heq]
        refine ⟨?_, hb, hcc⟩
        rw [ha]
        simp [statePend, List.reverse_cons]

/-- C7 (counterexample): for a function declared at indentation 4 and
followed by a line at the same indentation, the code's `.py` extraction
keeps the equally indented line (and drops the declaration's leading
blanks), while the claimed indentation rule closes the unit before that
line. -/
theorem C7_counterexample :
    Enhanced.pyExtract nestedDefSource "f"
      = some "def f(a):\n        return a\n    print(1)\n" ∧
    Enhanced.specPyExtract nestedDefSource "f"
      = some "    def f(a):\n        return a" ∧
    Enhanced.pyExtract nestedDefSource "f"
      ≠ Enhanced.specPyExtract nestedDefSource "f" :=
  ⟨rfl, rfl, by decide⟩

/-- C7 (witness): the body scan applied from the initial state to
`"  a\nZ"` collects the blank-led line and stops at `Z`. -/
theorem C7_witness :
    stOK PyState.start = true ∧
    ((pyGo PyState.start ("  a\nZ".toList)).1
        ++ (pyGo PyState.start ("  a\nZ".toList)).2
        = statePend PyState.start ++ "  a\nZ".toList ∧
      (splitChar '\n' (pyGo PyState.start ("  a\nZ".toList)).1).all segOK
        = true ∧
      stopOK (pyGo PyState.start ("  a\nZ".toList)).2 = true) :=
  ⟨rfl, C7_py_close_rule ("  a\nZ".toList) PyState.start rfl⟩

/-- C8: in a batch run over an existing-but-unreadable `a.py` and a
readable `b.py` with a failing backend, the unreadable unit is recorded
with a `None` result and the remaining unit still gets a degraded result,
but the batch-report step then applies a regex search to `None` and
raises `TypeError`, aborting the run — the failure escapes the unit
boundary. -/
theorem C8_batch_unreadable_raises :
    Enhanced.batchResults batchFS batchNet "T" ["a.py", "b.py"]
      = [("a.py", none),
         ("b.py",
          some (Enhanced.generate_error_response "T" "Invalid JSON response"))] ∧
    Enhanced.run_batch_analysis batchFS batchNet "T" ["a.py", "b.py"]
      = .error "TypeError: expected string or bytes-like object" := ⟨rfl, rfl⟩

/-- C9 (amended): every finding produced by the simulated fallback has a
severity among high, medium, low, info, and the severity histogram of
`save_report` is well-defined on any findings list whose severities are
absent or in that set; outside it the update raises `KeyError`. -/
theorem C9_severity_histogram (desc : String) (c : SevCounts)
    (findings : List JValue) (h : findings.all validSevB = true) :
    (simulatedFindings desc).all validSevB = true ∧
    ∃ c', severityHistogramAux c findings = .ok c' := by
  constructor
  · unfold simulatedFindings
    generalize strContains (pyLower desc) "reflection" = b1
    generalize strContains (pyLower desc) "tax" = b2
    generalize (strContains (pyLower desc) "transfer"
      || strContains (pyLower desc) "_update") = b3
    revert b1 b2 b3
    decide
  · induction findings generalizing c with
    | nil => exact ⟨c, rfl⟩
    | cons f rest ih =>
      simp only [List.all_cons, Bool.and_eq_true] at h
      obtain ⟨hf, hrest⟩ := h
      have hstep : ∃ c', histStep c f = .ok c' := by
        cases f with
        | obj fl =>
          simp only [validSevB] at hf
          simp only [histStep]
          cases hs : jLookup fl "severity" with
          | none => simp only [hs, Option.getD]; exact ⟨_, rfl⟩
          | some w =>
            rw [hs] at hf
            simp only [hs, Option.getD]
            cases w with
            | str s =>
              simp only [] at hf
              have hs4 : ((s = "high" ∨ s = "medium") ∨ s = "low")
                  ∨ s = "info" := by
                simpa [Bool.or_eq_true, beq_iff_eq] using hf
              rcases hs4 with ((h' | h') | h') | h' <;> subst h' <;>
                exact ⟨_, rfl⟩
            | null => exact absurd hf (by simp)
            | bool b => exact absurd hf (by simp)
            | num n => exact absurd hf (by simp)
            | arr l => exact absurd hf (by simp)
            | obj o => exact absurd hf (by simp)
        | null => exact absurd hf (by simp [validSevB])
        | bool b => exact absurd hf (by simp [validSevB])
        | num n => exact absurd hf (by simp [validSevB])
        | str s => exact absurd hf (by simp [validSevB])
        | arr l => exact absurd hf (by simp [validSevB])
      obtain ⟨c', hc'⟩ := hstep
      simp only [severityHistogramAux, hc']
      exact ih c' hrest

/-- C9 (counterexample): the dispatcher passes a backend-supplied finding
with severity `critical` through to the result, and the severity
histogram raises `KeyError` on it. -/
theorem C9_counterexample :
    Legacy.analyze_code_snippet parseCriticalFinding "T" (.ok respContentX)
      "c" "d" []
      = .obj [("status", .str "success"), ("timestamp", .str "T"),
              ("findings", .arr [.obj [("severity", .str "critical")]])] ∧
    Legacy.severityHistogram [.obj [("severity", .str "critical")]]
      = .error "KeyError: critical" := ⟨rfl, rfl⟩

/-- C9 (witness): the taxation fallback findings are valid and their
histogram succeeds. -/
theorem C9_witness :
    ([taxFinding1, taxFinding2].all validSevB = true) ∧
    ((simulatedFindings "tax").all validSevB = true ∧
      ∃ c', severityHistogramAux ⟨0, 0, 0, 0⟩ [taxFinding1, taxFinding2]
        = .ok c') :=
  ⟨by decide,
   C9_severity_histogram "tax" ⟨0, 0, 0, 0⟩ [taxFinding1, taxFinding2]
     (by decide)⟩

/-- C10: when the backend call succeeds and the reply content parses to a
JSON object lacking a `findings` key, the legacy dispatcher returns status
`success` with an empty findings list — the simulated fallback is not
invoked. -/
theorem C10_success_empty_findings (parse : String → Option JValue)
    (now code desc : String) (foc : List String) (r : JValue)
    (content : String) (cf : List (String × JValue))
    (h1 : extractContent r = some content)
    (h2 : parse content = some (.obj cf))
    (h3 : jLookup cf "findings" = none) :
    Legacy.analyze_code_snippet parse now (.ok r) code desc foc
      = .obj [("status", .str "success"), ("timestamp", .str now),
              ("findings", .arr [])] := by
  simp only [Legacy.analyze_code_snippet, h1, h2, h3, Option.getD]

/-- C10 (witness): with a parsed reply `{"note": null}` and the
tax-matching description `"tax"`, the result is still the empty findings
list, not the taxation fallback. -/
theorem C10_witness :
    Legacy.analyze_code_snippet parseNoFindings "T" (.ok respContentX)
      "code" "tax" []
      = .obj [("status", .str "success"), ("timestamp", .str "T"),
              ("findings", .arr [])] :=
  C10_success_empty_findings parseNoFindings "T" "code" "tax" []
    respContentX "x" [("note", .null)] (by rfl) (by rfl) (by rfl)

end Dove
